import Mathlib

/-!
Verification of the concurrency core of the repository
(src/07_concurrency/examples/asyncio_example.py and
src/07_concurrency/examples/threading_example.py), via a shallow
embedding of the relevant functions.  Time is modelled as ticks of an
opaque monotonic clock (a Nat); Python exception semantics are modelled
with Except; scheduler choices are explicit parameters.
-/

namespace AsyncioExample

/-- Python values that occur in dictionaries in this example: JSON payloads
are unexamined by the embedded code except on the error path, which stores
the string form of the caught exception under the key "error". -/
inductive PyAny where
  | str (s : String)
  | num (n : Int)
  | raw (tag : Nat)
  deriving DecidableEq

/-- Dictionary with string keys, as used for ApiResult.data. -/
abbrev PyDict := List (String × PyAny)

/-- ApiResult dataclass (asyncio_example.py lines 15-21): url, status,
data, elapsed.  elapsed (a float in the source) is modelled as clock ticks. -/
structure ApiResult where
  url : String
  status : Nat
  data : PyDict
  elapsed : Nat
  deriving DecidableEq

/-- Python exception object: its class name and its str() form.  Every
exception the embedded try-bodies can raise (aiohttp transport errors,
JSON decoding errors, asyncio.TimeoutError) is modelled this way. -/
structure PyExc where
  cls : String
  msg : String
  deriving DecidableEq

/-- Behaviour of one `session.get(url)` + `response.json()` round trip,
chosen by the environment: either a response (status, data) delivered
after dur ticks, or an exception (an Exception subclass, as all aiohttp
and json errors are) whose str() is excMsg, raised after dur ticks. -/
inductive FetchOutcome where
  | success (status : Nat) (data : PyDict) (dur : Nat)
  | failure (excMsg : String) (dur : Nat)
  deriving DecidableEq

/-- Tick of the clock at which control leaves the try body of fetch_url,
whether by returning or by raising. -/
def FetchOutcome.endTime (outcome : FetchOutcome) (start_time : Nat) : Nat :=
  match outcome with
  | .success _ _ dur => start_time + dur
  | .failure _ dur => start_time + dur

/-- try-block body of fetch_url (lines 37-41): awaits the request and, on
success, returns ApiResult(url, response.status, data, elapsed) with
elapsed measured from start_time; a transport or decoding failure raises. -/
def fetch_url_body (url : String) (outcome : FetchOutcome) (start_time : Nat) :
    Except PyExc ApiResult :=
  match outcome with
  | .success status data dur =>
      .ok ⟨url, status, data, start_time + dur - start_time⟩
  | .failure msg dur =>
      let _ := dur
      .error ⟨"Exception", msg⟩

/-- fetch_url (lines 24-44) under Python exception semantics: the try body
runs; `except Exception as e` catches any exception it raises (all raisable
exceptions here are Exception subclasses) and returns
ApiResult(url, 500, a dict mapping "error" to str(e), elapsed), with
elapsed measured from start_time to the moment of failure. -/
def fetch_url_run (url : String) (outcome : FetchOutcome) (start_time : Nat) :
    Except PyExc ApiResult :=
  match fetch_url_body url outcome start_time with
  | .ok r => .ok r
  | .error e =>
      .ok ⟨url, 500, [("error", PyAny.str e.msg)],
        FetchOutcome.endTime outcome start_time - start_time⟩

/-- Value computed by fetch_url (it never raises; see fetch_url_run_ok). -/
def fetch_url (url : String) (outcome : FetchOutcome) (start_time : Nat) :
    ApiResult :=
  match outcome with
  | .success status data dur =>
      ⟨url, status, data, start_time + dur - start_time⟩
  | .failure msg dur =>
      ⟨url, 500, [("error", PyAny.str msg)], start_time + dur - start_time⟩

/-- asyncio.gather with the default return_exceptions=False (line 81): if
every awaited task returns, their results are delivered in the order the
tasks were passed to gather; if some task raises, the exception propagates
out of the gather call instead of a result list.  (Which failing task's
exception wins depends on completion order; it never matters below because
fetch_url never raises.) -/
def gather {α : Type} : List (Except PyExc α) → Except PyExc (List α)
  | [] => .ok []
  | .error e :: _ => .error e
  | .ok a :: rest =>
    match gather rest with
    | .ok l => .ok (a :: l)
    | .error e => .error e

/-- Task list built by fetch_all_urls (lines 75-78): one fetch_url task per
url, in input order.  starts i is the scheduler-chosen tick at which the
i-th task's body begins; k is the index of the first url in the slice. -/
def fetch_tasks (env : String → FetchOutcome) (starts : Nat → Nat) :
    List String → Nat → List (Except PyExc ApiResult)
  | [], _ => []
  | u :: rest, k => fetch_url_run u (env u) (starts k) :: fetch_tasks env starts rest (k + 1)

/-- Result values of the same task list (pure form). -/
def fetch_results (env : String → FetchOutcome) (starts : Nat → Nat) :
    List String → Nat → List ApiResult
  | [], _ => []
  | u :: rest, k => fetch_url u (env u) (starts k) :: fetch_results env starts rest (k + 1)

/-- fetch_all_urls (lines 63-82): builds the task list and gathers it. -/
def fetch_all_urls (urls : List String) (env : String → FetchOutcome)
    (starts : Nat → Nat) : Except PyExc (List ApiResult) :=
  gather (fetch_tasks env starts urls 0)

/-- Behaviour of the race between main() and the 10.0s budget inside
asyncio.wait_for (line 132), chosen by the environment/scheduler: either
main() finishes first, or the budget elapses first. -/
inductive MainBehavior where
  | completesInTime
  | timesOut
  deriving DecidableEq

/-- Return value of run_with_timeout.  The Python function body has no
return statement, so the only value it can return is None. -/
inductive PyValue where
  | noneV
  deriving DecidableEq

/-- Observable events of one run_with_timeout invocation, in program order. -/
inductive SupEvent where
  | backgroundStarted
  | mainCompleted
  | timeoutCaught
  | backgroundCancelRequested
  | backgroundCancelAcked
  deriving DecidableEq

/-- asyncio.wait_for(main(), timeout=10.0): returns main's value (None) if
main finishes within the budget, and raises asyncio.TimeoutError if the
budget elapses first (cancelling main at its next suspension point). -/
def wait_for_main : MainBehavior → Except PyExc PyValue
  | .completesInTime => .ok .noneV
  | .timesOut => .error ⟨"TimeoutError", ""⟩

/-- run_with_timeout (lines 125-141).  create_task starts periodic_task
(backgroundStarted); the try block awaits wait_for; except
asyncio.TimeoutError swallows a timeout (timeoutCaught); the finally block
always runs before control leaves the function: it calls
background_task.cancel() (backgroundCancelRequested) and then awaits the
background task, which raises CancelledError at its sleep suspension point;
the except asyncio.CancelledError around that await is the cancellation
acknowledgment (backgroundCancelAcked).  The result pairs the function's
return value with the ordered event trace; an Except.error result would
mean an exception reached the caller. -/
def run_with_timeout (b : MainBehavior) : Except PyExc (PyValue × List SupEvent) :=
  let tryPart : Except PyExc (PyValue × List SupEvent) :=
    match wait_for_main b with
    | .ok _ => .ok (PyValue.noneV, [SupEvent.mainCompleted])
    | .error e =>
        if e.cls = "TimeoutError" then .ok (PyValue.noneV, [SupEvent.timeoutCaught])
        else .error e
  match tryPart with
  | .ok (v, evs) =>
      .ok (v, SupEvent.backgroundStarted ::
        (evs ++ [SupEvent.backgroundCancelRequested, SupEvent.backgroundCancelAcked]))
  | .error e => .error e

/-- Concrete environment used by witnesses: the second url always fails
with str(e) = "boom" after 3 ticks, every other url succeeds. -/
def envW : String → FetchOutcome := fun u =>
  if u = "u2" then .failure "boom" 3 else .success 200 [("id", PyAny.num 1)] 1

/-- Concrete start-tick schedule used by witnesses. -/
def startsW : Nat → Nat := fun i => 10 * i

end AsyncioExample

namespace ThreadingExample

/-- Task dataclass (threading_example.py lines 15-20): id, data, and a
mutable result slot that is None until the task is processed.  The source
defines no status field. -/
structure Task where
  id : Nat
  data : String
  result : Option String := none
  deriving DecidableEq

/-- Field names of the Task dataclass, in declaration order. -/
def Task.fieldNames : List String := ["id", "data", "result"]

/-- create_tasks (lines 83-88): Task(id=i, data=f"Data-i") for i in range(count),
with the result slot left at its None default. -/
def create_tasks (count : Nat) : List Task :=
  (List.range count).map fun i => { id := i, data := "Data-" ++ toString i }

/-- Worker._process_task (lines 68-76): prints, sleeps, then sets
task.result to "Processed " + task.data + " by " + worker name.  Only the
result assignment affects the task. -/
def process_task (workerName : String) (t : Task) : Task :=
  { t with result := some ("Processed " ++ t.data ++ " by " ++ workerName) }

/-- Attributes of the queue.Queue class in Python 3 (its public methods).
The module-level exception queue.Empty is not an attribute of the class,
so the expression Queue.Empty in the source raises AttributeError when
evaluated. -/
def queueClassAttrs : List String :=
  ["put", "get", "put_nowait", "get_nowait", "task_done", "join", "qsize",
   "empty", "full"]

/-- Exceptions that arise in the embedded worker loop. -/
inductive PyExcT where
  | queueEmpty
  | attributeError (msg : String)
  | taskError (msg : String)
  deriving DecidableEq

/-- Evaluation of the handler expression Queue.Empty (line 64): attribute
lookup of "Empty" on the Queue class.  The class has no such attribute, so
CPython raises AttributeError while evaluating the except clause. -/
def evalExceptClause : Except PyExcT Unit :=
  if "Empty" ∈ queueClassAttrs then .ok ()
  else .error (.attributeError "type object Queue has no attribute Empty")

/-- Outcome of one task_queue.get(timeout=1.0) call (line 53), chosen by
the environment: a task arrives within the timeout, or the timeout elapses
and get raises queue.Empty. -/
inductive GetOutcome where
  | item (t : Task)
  | emptyTimeout
  deriving DecidableEq

/-- Behaviour of one _process_task call, chosen by the environment: it
returns normally, or raises an exception whose str() is msg. -/
inductive ProcBehavior where
  | ok
  | raises (msg : String)
  deriving DecidableEq

/-- Result of one iteration of the while body of Worker.run. -/
inductive IterResult where
  | processed (t : Task)
  | continued
  | threadDied (e : PyExcT)
  deriving DecidableEq

/-- One iteration of the while body of Worker.run (lines 50-66), under
CPython semantics: the try body dequeues, processes, calls task_done and
increments the counter; if the body raises, the except clause expression
Queue.Empty is evaluated, and since that evaluation itself raises
AttributeError, the AttributeError propagates out of run() (the original
exception becomes its context), killing the thread; had the clause
evaluated to a class, the pending exception would be matched against it
(continue on a match, propagate otherwise). -/
def run_iteration (workerName : String) (g : GetOutcome) (p : ProcBehavior) :
    IterResult :=
  let body : Except PyExcT Task :=
    match g with
    | .emptyTimeout => .error .queueEmpty
    | .item t =>
      match p with
      | .raises m => .error (.taskError m)
      | .ok => .ok (process_task workerName t)
  match body with
  | .ok t => .processed t
  | .error e =>
    match evalExceptClause with
    | .error ae => .threadDied ae
    | .ok _ => if e = .queueEmpty then .continued else .threadDied e

/-- How a worker's run() can terminate in a bounded trace. -/
inductive RunExit where
  | exitedLoop
  | died (e : PyExcT)
  | outOfFuel
  deriving DecidableEq

/-- Worker.run (lines 48-66), driven by per-iteration environment choices:
running k is the value of self.running observed at the k-th loop-condition
check (stop() flips it to false), gets k the k-th dequeue outcome and
procs k the k-th processing behaviour; fuel bounds the number of modelled
iterations.  The loop exits normally only via the while condition. -/
def worker_run (workerName : String) (running : Nat → Bool)
    (gets : Nat → GetOutcome) (procs : Nat → ProcBehavior) :
    Nat → Nat → RunExit
  | 0, _ => .outOfFuel
  | fuel + 1, k =>
    if running k then
      match run_iteration workerName (gets k) (procs k) with
      | .threadDied e => .died e
      | _ => worker_run workerName running gets procs fuel (k + 1)
    else .exitedLoop

/-- Micro-steps of ThreadSafeCounter.increment (lines 30-32): entering the
`with self._lock` block acquires the lock; `self._value += 1` reads the
value and then writes the incremented value; leaving the block releases
the lock.  readv r records the value read. -/
inductive IncPc where
  | ready
  | acquired
  | readv (r : Nat)
  | wrote
  deriving DecidableEq

/-- State of the counter system: the counter's _value, the holder of its
_lock (if any), and per worker its program counter and the number of
increments it still has to perform. -/
structure CounterSys where
  value : Nat
  lock : Option Nat
  threads : List (IncPc × Nat)
  deriving DecidableEq

/-- Next enabled micro-step of worker i whose state is (pc, r): acquire the
lock if free (blocking leaves the state unchanged), then read, then write
the incremented value, then release and decrement the owed count.  A worker
with no increments left does nothing. -/
def threadStep (s : CounterSys) (i : Nat) : IncPc → Nat → CounterSys
  | .ready, r =>
    if r = 0 then s
    else
      match s.lock with
      | some _ => s
      | none => { s with lock := some i, threads := s.threads.set i (.acquired, r) }
  | .acquired, r =>
    if s.lock = some i then
      { s with threads := s.threads.set i (.readv s.value, r) }
    else s
  | .readv v, r =>
    if s.lock = some i then
      { s with value := v + 1, threads := s.threads.set i (.wrote, r) }
    else s
  | .wrote, r =>
    if s.lock = some i then
      { s with lock := none, threads := s.threads.set i (.ready, r - 1) }
    else s

/-- One scheduler step: worker i takes its next enabled micro-step; a
disabled pick (blocked acquiring a held lock, no increments left, or an
out-of-range index) leaves the state unchanged, modelling a blocked or
finished thread being scheduled. -/
def cstep (s : CounterSys) (i : Nat) : CounterSys :=
  match s.threads[i]? with
  | none => s
  | some (pc, r) => threadStep s i pc r

/-- Run of the counter system under a schedule (the list of worker indices
picked by the OS scheduler, one per micro-step). -/
def cexec (s : CounterSys) : List Nat → CounterSys
  | [] => s
  | i :: rest => cexec (cstep s i) rest

/-- Starting state: counter 0, lock free, W workers each owing K increments. -/
def cinit (W K : Nat) : CounterSys :=
  ⟨0, none, List.replicate W (IncPc.ready, K)⟩

/-- A state is finished when every worker is out of its critical section
with no increments left to perform. -/
def finished (s : CounterSys) : Bool :=
  s.threads.all fun t => decide (t = (IncPc.ready, 0))

/-- Number of increments worker state t has already applied to the counter,
out of the K it owes: K minus the increments still owed, plus one while the
worker has written the new value but not yet released (the release is where
its owed count is decremented). -/
def applied (K : Nat) : IncPc × Nat → Nat
  | (.wrote, r) => K - r + 1
  | (_, r) => K - r

/-- Invariant of the counter system: the counter equals the total number of
applied increments; no worker owes more than K; a worker inside the
critical section still owes at least one increment; and a worker that holds
the lock and has read v read the current value (nobody else can write while
it holds the lock). -/
structure CounterInv (K : Nat) (s : CounterSys) : Prop where
  val_eq : s.value = (s.threads.map (applied K)).sum
  rem_le : ∀ t ∈ s.threads, t.2 ≤ K
  crit_owes : ∀ t ∈ s.threads, t.1 ≠ IncPc.ready → 1 ≤ t.2
  read_current : ∀ i v r, s.threads[i]? = some (IncPc.readv v, r) →
    s.lock = some i → v = s.value

end ThreadingExample

namespace AsyncioExample

theorem fetch_url_run_ok (url : String) (outcome : FetchOutcome) (start_time : Nat) :
    fetch_url_run url outcome start_time = .ok (fetch_url url outcome start_time) := by
  cases outcome <;> rfl

theorem gather_fetch_tasks (env : String → FetchOutcome) (starts : Nat → Nat) :
    ∀ (urls : List String) (k : Nat),
      gather (fetch_tasks env starts urls k) = .ok (fetch_results env starts urls k) := by
  intro urls
  induction urls with
  | nil => intro k; rfl
  | cons u rest ih =>
    intro k
    simp only [fetch_tasks, fetch_results, fetch_url_run_ok, gather, ih]

theorem fetch_results_length (env : String → FetchOutcome) (starts : Nat → Nat) :
    ∀ (urls : List String) (k : Nat),
      (fetch_results env starts urls k).length = urls.length := by
  intro urls
  induction urls with
  | nil => intro k; rfl
  | cons u rest ih => intro k; simp [fetch_results, ih]

theorem fetch_results_getElem? (env : String → FetchOutcome) (starts : Nat → Nat) :
    ∀ (urls : List String) (k i : Nat) (hi : i < urls.length),
      (fetch_results env starts urls k)[i]? =
        some (fetch_url (urls.get ⟨i, hi⟩) (env (urls.get ⟨i, hi⟩)) (starts (k + i))) := by
  intro urls
  induction urls with
  | nil => intro k i hi; exact absurd hi (Nat.not_lt_zero i)
  | cons u rest ih =>
    intro k i hi
    cases i with
    | zero => simp [fetch_results]
    | succ i =>
      have hi' : i < rest.length := Nat.lt_of_succ_lt_succ hi
      have := ih (k + 1) i hi'
      simp only [fetch_results, List.getElem?_cons_succ, this, List.get]
      have harith : k + 1 + i = k + (i + 1) := by omega
      rw [harith]

theorem fetch_results_mem_of_failure (env : String → FetchOutcome) (starts : Nat → Nat) :
    ∀ (urls : List String) (k : Nat) (u msg : String) (dur : Nat),
      u ∈ urls → env u = .failure msg dur →
      ApiResult.mk u 500 [("error", PyAny.str msg)] dur ∈ fetch_results env starts urls k := by
  intro urls
  induction urls with
  | nil => intro k u msg dur hu _; exact absurd hu (List.not_mem_nil u)
  | cons u0 rest ih =>
    intro k u msg dur hu he
    rcases List.mem_cons.mp hu with h | h
    · subst h
      simp [fetch_results, fetch_url, he, Nat.add_sub_cancel_left]
    · exact List.mem_cons_of_mem _ (ih (k + 1) u msg dur h he)

/-- Claim C1: for every list of requests, fetch_all_urls returns (never
raises) exactly one ApiResult per input request; a request whose fetch
raises is converted into an ApiResult carrying the 500 error marker and is
still part of the batch instead of aborting it. -/
theorem fetch_all_one_result_per_request (urls : List String)
    (env : String → FetchOutcome) (starts : Nat → Nat) :
    ∃ rs : List ApiResult, fetch_all_urls urls env starts = .ok rs ∧
      rs.length = urls.length ∧
      ∀ u msg dur, u ∈ urls → env u = .failure msg dur →
        ApiResult.mk u 500 [("error", PyAny.str msg)] dur ∈ rs := by
  refine ⟨fetch_results env starts urls 0, gather_fetch_tasks env starts urls 0,
    fetch_results_length env starts urls 0, ?_⟩
  intro u msg dur hu he
  exact fetch_results_mem_of_failure env starts urls 0 u msg dur hu he

/-- Witness for fetch_all_one_result_per_request at a concrete batch where
the second request always fails. -/
theorem fetch_all_one_result_per_request_witness :
    ∃ rs : List ApiResult, fetch_all_urls ["u1", "u2"] envW startsW = .ok rs ∧
      rs.length = 2 ∧ ApiResult.mk "u2" 500 [("error", PyAny.str "boom")] 3 ∈ rs := by
  obtain ⟨rs, h1, h2, h3⟩ := fetch_all_one_result_per_request ["u1", "u2"] envW startsW
  exact ⟨rs, h1, h2, h3 "u2" "boom" 3 (by simp) (by decide)⟩

/-- Claim C9: the list returned by fetch_all_urls is index-aligned to the
input: the i-th result is fetch_url applied to the i-th request (gather
preserves the order in which the tasks were created, which is input order). -/
theorem fetch_all_index_aligned (urls : List String) (env : String → FetchOutcome)
    (starts : Nat → Nat) (i : Nat) (hi : i < urls.length) :
    ∃ rs, fetch_all_urls urls env starts = .ok rs ∧
      rs[i]? = some (fetch_url (urls.get ⟨i, hi⟩) (env (urls.get ⟨i, hi⟩)) (starts i)) := by
  refine ⟨fetch_results env starts urls 0, gather_fetch_tasks env starts urls 0, ?_⟩
  have h := fetch_results_getElem? env starts urls 0 i hi
  simpa using h

/-- Witness for fetch_all_index_aligned at index 1 of a concrete batch. -/
theorem fetch_all_index_aligned_witness :
    ∃ rs, fetch_all_urls ["u1", "u2"] envW startsW = .ok rs ∧
      rs[1]? = some (fetch_url "u2" (envW "u2") (startsW 1)) := by
  have h := fetch_all_index_aligned ["u1", "u2"] envW startsW 1 (by decide)
  exact h

/-- Claim C10: for every URL whose fetch raises, fetch_url returns (rather
than raising) an ApiResult whose status is exactly 500 regardless of the
kind of failure, whose data is the dict mapping "error" to the string form
of the exception, and whose elapsed is the duration measured from the start
of the call. -/
theorem fetch_url_failure_is_500_error (url msg : String) (dur start_time : Nat) :
    fetch_url_run url (.failure msg dur) start_time =
      .ok (ApiResult.mk url 500 [("error", PyAny.str msg)] dur) := by
  simp [fetch_url_run, fetch_url_body, FetchOutcome.endTime, Nat.add_sub_cancel_left]

/-- Claim C7 counterexample: run_with_timeout returns the same value, None,
whether the main operation completed in time or the budget elapsed first,
so its return value is not an outcome of the form Completed(result) or
TimedOut and cannot distinguish the two cases (they differ only in printed
output). -/
theorem run_with_timeout_no_outcome_value :
    (run_with_timeout MainBehavior.completesInTime).map Prod.fst =
      (run_with_timeout MainBehavior.timesOut).map Prod.fst ∧
    (run_with_timeout MainBehavior.completesInTime).map Prod.fst =
      Except.ok PyValue.noneV := ⟨rfl, rfl⟩

/-- Claim C7 amended: the caller of run_with_timeout never receives a
raised timeout exception — the TimeoutError from wait_for is caught — and
the function returns normally on both paths; however it returns None on
both paths rather than an explicit Completed(result)/TimedOut outcome
value, reporting the distinction only via printed output. -/
theorem run_with_timeout_never_raises (b : MainBehavior) :
    ∃ evs, run_with_timeout b = .ok (PyValue.noneV, evs) := by
  cases b
  · exact ⟨_, rfl⟩
  · exact ⟨_, rfl⟩

/-- Claim C8: on every termination path of run_with_timeout (main completed
in time, or deadline elapsed), the finally block cancels the background
periodic task and awaits its cancellation acknowledgment, and these are
the last two events before the function returns. -/
theorem background_cancelled_before_return (b : MainBehavior) :
    ∃ v pre, run_with_timeout b =
      .ok (v, pre ++ [SupEvent.backgroundCancelRequested, SupEvent.backgroundCancelAcked]) := by
  cases b
  · exact ⟨PyValue.noneV, [SupEvent.backgroundStarted, SupEvent.mainCompleted], rfl⟩
  · exact ⟨PyValue.noneV, [SupEvent.backgroundStarted, SupEvent.timeoutCaught], rfl⟩

end AsyncioExample

namespace ThreadingExample

/-- Claim C2 counterexample: at a concrete task whose processing raises, the
worker loop does not continue with a failed status recorded on the task:
the pending exception escapes run() (replaced by the AttributeError that
evaluating the except clause produces), killing that worker's thread, and
Task has no status field on which a failure could be recorded. -/
theorem processing_exception_not_caught_cx :
    run_iteration "Worker-1" (GetOutcome.item (Task.mk 3 "Data-3" none))
        (ProcBehavior.raises "boom") =
      IterResult.threadDied
        (PyExcT.attributeError "type object Queue has no attribute Empty") ∧
    "status" ∉ Task.fieldNames := by decide

/-- Claim C2 amended: an exception raised during task processing is not
caught per-task: no failed status is recorded (Task has no status field)
and the exception propagates out of the worker's run loop — as the
AttributeError raised while evaluating the except clause expression
Queue.Empty — terminating that worker; other workers, being separate
threads, are unaffected. -/
theorem processing_exception_kills_worker (name : String) (t : Task) (m : String) :
    run_iteration name (GetOutcome.item t) (ProcBehavior.raises m) =
      IterResult.threadDied
        (PyExcT.attributeError "type object Queue has no attribute Empty") := by
  rfl

/-- Claim C3 (code bug): evaluating the code at the failing input: when the
dequeue poll times out, get raises queue.Empty, and the empty branch —
instead of swallowing it and continuing the loop as the source comment
intends — itself raises AttributeError because queue.Queue has no attribute
Empty, so the iteration kills the worker rather than continuing. -/
theorem empty_poll_branch_raises :
    run_iteration "Worker-0" GetOutcome.emptyTimeout ProcBehavior.ok =
      IterResult.threadDied
        (PyExcT.attributeError "type object Queue has no attribute Empty") ∧
    IterResult.threadDied
        (PyExcT.attributeError "type object Queue has no attribute Empty") ≠
      IterResult.continued := by decide

/-- Claim C4 (code bug): evaluating the code at the failing scenario:
stop() lands while the worker is blocked in an empty poll (running is true
at the iteration-0 check and false from iteration 1 on); instead of
surviving the poll timeout, re-checking the flag and exiting its loop
cooperatively, the worker dies of the AttributeError raised by the except
clause, so termination on this path is an unhandled-exception crash, not
the cooperative flag observation the claim describes. -/
theorem stop_during_empty_poll_not_cooperative :
    worker_run "Worker-0" (fun k => k == 0) (fun _ => GetOutcome.emptyTimeout)
        (fun _ => ProcBehavior.ok) 5 0 =
      RunExit.died
        (PyExcT.attributeError "type object Queue has no attribute Empty") ∧
    RunExit.died
        (PyExcT.attributeError "type object Queue has no attribute Empty") ≠
      RunExit.exitedLoop := by decide

/-- Claim C5 counterexample: the Task dataclass carries no status field at
all — its fields are exactly id, data and result — so no task ever carries
a terminal status drawn from pending/done/failed. -/
theorem task_has_no_status_field :
    "status" ∉ Task.fieldNames ∧ Task.fieldNames = ["id", "data", "result"] := by
  decide

/-- Claim C5 amended: a Task carries no status field; its terminal state is
readable only from the result slot, which is None on every task built by
create_tasks and is set to the processed string once a worker processes the
task. -/
theorem task_completion_via_result_slot (name : String) (n : Nat) (t : Task)
    (ht : t ∈ create_tasks n) :
    t.result = none ∧
    (process_task name t).result = some ("Processed " ++ t.data ++ " by " ++ name) := by
  constructor
  · obtain ⟨i, _, hi⟩ := List.mem_map.mp ht
    rw [← hi]
  · rfl

/-- Witness for task_completion_via_result_slot on the second task of a
three-task batch. -/
theorem task_completion_via_result_slot_witness :
    (Task.mk 1 "Data-1" none).result = none ∧
    (process_task "Worker-0" (Task.mk 1 "Data-1" none)).result =
      some ("Processed " ++ "Data-1" ++ " by " ++ "Worker-0") :=
  task_completion_via_result_slot "Worker-0" 3 (Task.mk 1 "Data-1" none) (by decide)

end ThreadingExample

namespace ThreadingExample

theorem mem_of_getElem?_some {α : Type} {l : List α} {i : Nat} {a : α}
    (h : l[i]? = some a) : a ∈ l := by
  obtain ⟨hlt, he⟩ := List.getElem?_eq_some.mp h
  exact he ▸ List.getElem_mem hlt

theorem sum_map_set_add {α : Type} (f : α → Nat) :
    ∀ (l : List α) (i : Nat) (a b : α), l[i]? = some a →
      ((l.set i b).map f).sum + f a = (l.map f).sum + f b := by
  intro l
  induction l with
  | nil => intro i a b h; simp at h
  | cons x xs ih =>
    intro i a b h
    cases i with
    | zero =>
      simp only [List.getElem?_cons_zero, Option.some.injEq] at h
      subst h
      simp only [List.set_cons_zero, List.map_cons, List.sum_cons]
      omega
    | succ i =>
      simp only [List.getElem?_cons_succ] at h
      have := ih i a b h
      simp only [List.set_cons_succ, List.map_cons, List.sum_cons]
      omega

theorem cstep_of_none {s : CounterSys} {i : Nat}
    (h : s.threads[i]? = none) : cstep s i = s := by
  unfold cstep
  rw [h]

theorem cstep_of_some {s : CounterSys} {i : Nat} {pc : IncPc} {r : Nat}
    (h : s.threads[i]? = some (pc, r)) : cstep s i = threadStep s i pc r := by
  unfold cstep
  rw [h]

theorem inv_acquire {K : Nat} {s : CounterSys} {i r : Nat}
    (hs : CounterInv K s) (hti : s.threads[i]? = some (IncPc.ready, r))
    (hr : r ≠ 0) :
    CounterInv K
      { s with lock := some i, threads := s.threads.set i (IncPc.acquired, r) } := by
  obtain ⟨hval, hle, hcrit, hread⟩ := hs
  have hlt : i < s.threads.length := (List.getElem?_eq_some.mp hti).1
  have hmem : (IncPc.ready, r) ∈ s.threads := mem_of_getElem?_some hti
  refine ⟨?_, ?_, ?_, ?_⟩
  · show s.value = ((s.threads.set i (IncPc.acquired, r)).map (applied K)).sum
    have hsum := sum_map_set_add (applied K) s.threads i
      (IncPc.ready, r) (IncPc.acquired, r) hti
    simp only [applied] at hsum
    omega
  · intro t ht
    rcases List.mem_or_eq_of_mem_set ht with h | h
    · exact hle t h
    · subst h; exact hle (IncPc.ready, r) hmem
  · intro t ht hpc
    rcases List.mem_or_eq_of_mem_set ht with h | h
    · exact hcrit t h hpc
    · subst h; omega
  · intro j v r' hj hlj
    have hij : i = j := by simpa using hlj
    subst hij
    simp only [List.getElem?_set_self, hlt, if_pos] at hj
    exact absurd hj (by simp)

theorem inv_read {K : Nat} {s : CounterSys} {i r : Nat}
    (hs : CounterInv K s) (hti : s.threads[i]? = some (IncPc.acquired, r))
    (hl : s.lock = some i) :
    CounterInv K { s with threads := s.threads.set i (IncPc.readv s.value, r) } := by
  obtain ⟨hval, hle, hcrit, hread⟩ := hs
  have hlt : i < s.threads.length := (List.getElem?_eq_some.mp hti).1
  have hmem : (IncPc.acquired, r) ∈ s.threads := mem_of_getElem?_some hti
  refine ⟨?_, ?_, ?_, ?_⟩
  · show s.value = ((s.threads.set i (IncPc.readv s.value, r)).map (applied K)).sum
    have hsum := sum_map_set_add (applied K) s.threads i
      (IncPc.acquired, r) (IncPc.readv s.value, r) hti
    simp only [applied] at hsum
    omega
  · intro t ht
    rcases List.mem_or_eq_of_mem_set ht with h | h
    · exact hle t h
    · subst h; exact hle (IncPc.acquired, r) hmem
  · intro t ht hpc
    rcases List.mem_or_eq_of_mem_set ht with h | h
    · exact hcrit t h hpc
    · subst h
      exact hcrit (IncPc.acquired, r) hmem (fun hcon => IncPc.noConfusion hcon)
  · intro j v r' hj hlj
    have hlj' : s.lock = some j := hlj
    rw [hl] at hlj'
    have hij : i = j := Option.some.inj hlj'
    subst hij
    simp only [List.getElem?_set_self, hlt, if_pos, Option.some.injEq] at hj
    have hv : IncPc.readv s.value = IncPc.readv v := congrArg Prod.fst hj
    have := (IncPc.readv.injEq s.value v).mp hv
    simp [this]

theorem inv_write {K : Nat} {s : CounterSys} {i v r : Nat}
    (hs : CounterInv K s) (hti : s.threads[i]? = some (IncPc.readv v, r))
    (hl : s.lock = some i) :
    CounterInv K
      { s with value := v + 1, threads := s.threads.set i (IncPc.wrote, r) } := by
  obtain ⟨hval, hle, hcrit, hread⟩ := hs
  have hlt : i < s.threads.length := (List.getElem?_eq_some.mp hti).1
  have hmem : (IncPc.readv v, r) ∈ s.threads := mem_of_getElem?_some hti
  have hv : v = s.value := hread i v r hti hl
  refine ⟨?_, ?_, ?_, ?_⟩
  · show v + 1 = ((s.threads.set i (IncPc.wrote, r)).map (applied K)).sum
    have hsum := sum_map_set_add (applied K) s.threads i
      (IncPc.readv v, r) (IncPc.wrote, r) hti
    simp only [applied] at hsum
    omega
  · intro t ht
    rcases List.mem_or_eq_of_mem_set ht with h | h
    · exact hle t h
    · subst h; exact hle (IncPc.readv v, r) hmem
  · intro t ht hpc
    rcases List.mem_or_eq_of_mem_set ht with h | h
    · exact hcrit t h hpc
    · subst h
      exact hcrit (IncPc.readv v, r) hmem (fun hcon => IncPc.noConfusion hcon)
  · intro j w r' hj hlj
    have hlj' : s.lock = some j := hlj
    rw [hl] at hlj'
    have hij : i = j := Option.some.inj hlj'
    subst hij
    simp only [List.getElem?_set_self, hlt, if_pos] at hj
    exact absurd hj (by simp)

theorem inv_release {K : Nat} {s : CounterSys} {i r : Nat}
    (hs : CounterInv K s) (hti : s.threads[i]? = some (IncPc.wrote, r))
    (_hl : s.lock = some i) :
    CounterInv K
      { s with lock := none, threads := s.threads.set i (IncPc.ready, r - 1) } := by
  obtain ⟨hval, hle, hcrit, hread⟩ := hs
  have hlt : i < s.threads.length := (List.getElem?_eq_some.mp hti).1
  have hmem : (IncPc.wrote, r) ∈ s.threads := mem_of_getElem?_some hti
  have h1r : 1 ≤ r := hcrit _ hmem (fun hcon => IncPc.noConfusion hcon)
  have hrK : r ≤ K := hle _ hmem
  refine ⟨?_, ?_, ?_, ?_⟩
  · show s.value = ((s.threads.set i (IncPc.ready, r - 1)).map (applied K)).sum
    have hsum := sum_map_set_add (applied K) s.threads i
      (IncPc.wrote, r) (IncPc.ready, r - 1) hti
    simp only [applied] at hsum
    omega
  · intro t ht
    rcases List.mem_or_eq_of_mem_set ht with h | h
    · exact hle t h
    · subst h; show r - 1 ≤ K; omega
  · intro t ht hpc
    rcases List.mem_or_eq_of_mem_set ht with h | h
    · exact hcrit t h hpc
    · subst h; exact absurd rfl hpc
  · intro j w r' hj hlj
    exact Option.noConfusion hlj

theorem cstep_inv {K : Nat} (s : CounterSys) (i : Nat) (hs : CounterInv K s) :
    CounterInv K (cstep s i) := by
  cases hti : s.threads[i]? with
  | none => rw [cstep_of_none hti]; exact hs
  | some pr =>
    obtain ⟨pc, r⟩ := pr
    rw [cstep_of_some hti]
    cases pc with
    | ready =>
      by_cases hr : r = 0
      · simp only [threadStep, if_pos hr]; exact hs
      · cases hlock : s.lock with
        | some j => simp only [threadStep, if_neg hr, hlock]; exact hs
        | none => simp only [threadStep, if_neg hr, hlock]; exact inv_acquire hs hti hr
    | acquired =>
      by_cases hl : s.lock = some i
      · simp only [threadStep, if_pos hl]; exact inv_read hs hti hl
      · simp only [threadStep, if_neg hl]; exact hs
    | readv v =>
      by_cases hl : s.lock = some i
      · simp only [threadStep, if_pos hl]; exact inv_write hs hti hl
      · simp only [threadStep, if_neg hl]; exact hs
    | wrote =>
      by_cases hl : s.lock = some i
      · simp only [threadStep, if_pos hl]; exact inv_release hs hti hl
      · simp only [threadStep, if_neg hl]; exact hs

theorem cexec_inv {K : Nat} : ∀ (sched : List Nat) (s : CounterSys),
    CounterInv K s → CounterInv K (cexec s sched)
  | [], _, h => h
  | i :: rest, s, h => cexec_inv rest (cstep s i) (cstep_inv s i h)

theorem cstep_threads_length (s : CounterSys) (i : Nat) :
    (cstep s i).threads.length = s.threads.length := by
  cases hti : s.threads[i]? with
  | none => rw [cstep_of_none hti]
  | some pr =>
    obtain ⟨pc, r⟩ := pr
    rw [cstep_of_some hti]
    cases pc with
    | ready =>
      by_cases hr : r = 0
      · simp [threadStep, hr]
      · cases hlock : s.lock with
        | some j => simp [threadStep, hr, hlock]
        | none => simp [threadStep, hr, hlock]
    | acquired => by_cases hl : s.lock = some i <;> simp [threadStep, hl]
    | readv v => by_cases hl : s.lock = some i <;> simp [threadStep, hl]
    | wrote => by_cases hl : s.lock = some i <;> simp [threadStep, hl]

theorem cexec_threads_length : ∀ (sched : List Nat) (s : CounterSys),
    (cexec s sched).threads.length = s.threads.length
  | [], _ => rfl
  | i :: rest, s => by
    show (cexec (cstep s i) rest).threads.length = s.threads.length
    rw [cexec_threads_length rest (cstep s i), cstep_threads_length]

theorem cinit_inv (W K : Nat) : CounterInv K (cinit W K) := by
  refine ⟨?_, ?_, ?_, ?_⟩
  · show 0 = ((List.replicate W (IncPc.ready, K)).map (applied K)).sum
    simp [applied, List.map_replicate, List.sum_replicate]
  · intro t ht
    have heq := List.eq_of_mem_replicate ht
    rw [heq]
  · intro t ht hpc
    have heq := List.eq_of_mem_replicate ht
    rw [heq] at hpc
    exact absurd rfl hpc
  · intro j v r hj _
    have hmem := mem_of_getElem?_some hj
    have heq := List.eq_of_mem_replicate hmem
    have h1 : IncPc.readv v = IncPc.ready := congrArg Prod.fst heq
    exact IncPc.noConfusion h1

/-- Claim C6: for W workers each performing K increments through
ThreadSafeCounter.increment, and any interleaving whatsoever of the
acquire/read/write/release micro-steps chosen by the OS scheduler, a run in
which every worker finishes leaves the counter at exactly W * K: no
increment is ever lost, because the mutual-exclusion lock serializes the
read-modify-write.  Instantiating W = 5 and K = 1000 gives exactly 5000,
every run. -/
theorem no_lost_increments (W K : Nat) (sched : List Nat)
    (h : finished (cexec (cinit W K) sched) = true) :
    (cexec (cinit W K) sched).value = W * K := by
  obtain ⟨hval, -, -, -⟩ := cexec_inv sched (cinit W K) (cinit_inv W K)
  have hlen : (cexec (cinit W K) sched).threads.length = W := by
    rw [cexec_threads_length]
    simp [cinit]
  simp only [finished] at h
  have hall : ∀ t ∈ (cexec (cinit W K) sched).threads, t = (IncPc.ready, 0) := by
    intro t ht
    exact of_decide_eq_true (List.all_eq_true.mp h t ht)
  have hmap : (cexec (cinit W K) sched).threads.map (applied K) =
      List.replicate W K := by
    refine List.eq_replicate_iff.mpr ⟨by simp [hlen], ?_⟩
    intro b hb
    obtain ⟨t, ht, hbt⟩ := List.mem_map.mp hb
    rw [hall t ht] at hbt
    simp only [applied] at hbt
    omega
  rw [hval, hmap]
  simp [List.sum_replicate]

/-- Witness for no_lost_increments: two workers with one increment each,
under an interleaving in which the second worker's acquire is attempted
(and blocks) while the first holds the lock. -/
theorem no_lost_increments_witness :
    finished (cexec (cinit 2 1) [0, 1, 0, 0, 0, 1, 1, 1, 1]) = true ∧
    (cexec (cinit 2 1) [0, 1, 0, 0, 0, 1, 1, 1, 1]).value = 2 * 1 :=
  ⟨by decide, no_lost_increments 2 1 [0, 1, 0, 0, 0, 1, 1, 1, 1] (by decide)⟩

end ThreadingExample
